import Mathlib

/-!
Shallow embedding of the backup/versioning subsystem of `backup_system.py`
(functions `should_exclude`, `get_backup_filename`, `create_backup`,
`list_backups`, `cleanup_old_backups`, `restore_backup`) and proofs of the
spec claims about it.

Paths are modelled as lists of characters (`Pth`); the backup root is a list
of directory entries (`DirItem`); the content root is a finite file tree
(`FTree`/`FForest`); wall-clock instants are the `timestamp` naturals stored
in metadata plus a broken-down `DateTime` for the `strftime`-derived
identifier.
-/

namespace BackupSystem

/-- Paths and other strings, as character lists (Python `str`). -/
abbrev Pth := List Char

/-- CONFIG['exclude_patterns'] from the source configuration block. -/
def exclude_patterns : List Pth :=
  [".git".data, "__pycache__".data, "*.pyc".data, "*.log".data, "backups".data]

/-- CONFIG['max_backups'] (default retention limit). -/
def max_backups : Nat := 30

/-- CONFIG['config_files'], as script-relative paths. -/
def config_files : List Pth := ["config.yaml".data, "netlify.toml".data]

/-- Source `should_exclude(path)`: a path is excluded when some configured
pattern occurs in it as a literal substring (`pattern in path`). -/
def should_exclude (pats : List Pth) (path : Pth) : Bool :=
  pats.any (fun pat => decide (pat <:+: path))

/-- Broken-down wall-clock instant, as consumed by
`datetime.datetime.now().strftime('%Y%m%d_%H%M%S')`. -/
structure DateTime where
  year : Nat
  month : Nat
  day : Nat
  hour : Nat
  minute : Nat
  second : Nat
deriving DecidableEq

/-- Ranges of the `DateTime` fields produced by a real clock. -/
def validDT (d : DateTime) : Prop :=
  d.year < 10000 ∧ 1 ≤ d.month ∧ d.month ≤ 12 ∧ 1 ≤ d.day ∧ d.day ≤ 31 ∧
    d.hour ≤ 23 ∧ d.minute ≤ 59 ∧ d.second ≤ 59

instance (d : DateTime) : Decidable (validDT d) := by
  unfold validDT; infer_instance

/-- Zero-padded fixed-width decimal rendering, most significant digit first
(the behaviour of the `%Y`, `%m`, ... `strftime` fields). -/
def padNum : Nat → Nat → Pth
  | 0, _ => []
  | w + 1, n => Nat.digitChar (n / 10 ^ w) :: padNum w (n % 10 ^ w)

/-- The `'%Y%m%d_%H%M%S'` format string applied to an instant. -/
def fmtDT (d : DateTime) : Pth :=
  padNum 4 d.year ++ (padNum 2 d.month ++ (padNum 2 d.day ++
    ('_' :: (padNum 2 d.hour ++ (padNum 2 d.minute ++ padNum 2 d.second)))))

/-- Source `get_backup_filename()`: `f'backup_{timestamp}'` where `timestamp`
is the current instant rendered with `'%Y%m%d_%H%M%S'`. -/
def get_backup_filename (d : DateTime) : Pth :=
  "backup_".data ++ fmtDT d

/-- Chronological sort key of an instant at second granularity; ordering two
valid instants by `dtKey` orders them chronologically. -/
def dtKey (d : DateTime) : Nat :=
  ((((d.year * 100 + d.month) * 100 + d.day) * 100 + d.hour) * 100 +
      d.minute) * 100 + d.second

/-- Path join with `'/'`, i.e. `os.path.join` on the posix layout the source
assumes. -/
def pjoin (a b : Pth) : Pth := a ++ '/' :: b

/-- A plain file, identified by its (container-relative) path and its
`os.path.getsize` byte size. -/
structure FileEnt where
  path : Pth
  size : Nat
deriving DecidableEq

/-- Total byte size of a set of files (the running `content_size` /
`dir_size` accumulations of the source). -/
def sumSizes (fs : List FileEnt) : Nat := (fs.map (fun f => f.size)).sum

mutual
/-- A node of the content tree (`CONFIG['content_dir']`). -/
inductive FTree where
  | file (name : Pth) (size : Nat)
  | dir (name : Pth) (children : FForest)
/-- An ordered list of sibling nodes of the content tree. -/
inductive FForest where
  | nil
  | cons (t : FTree) (ts : FForest)
end

mutual
/-- One step of the `os.walk` loop of `create_backup`: an excluded file is
skipped, an excluded directory is pruned (`dirs[:] = [...]`), everything
else is emitted under its path. -/
def walkOne (pats : List Pth) (pref : Pth) : FTree → List FileEnt
  | .file n sz =>
      if should_exclude pats (pjoin pref n) then [] else [⟨pjoin pref n, sz⟩]
  | .dir n cs =>
      if should_exclude pats (pjoin pref n) then []
      else walkList pats (pjoin pref n) cs
/-- The `os.walk` traversal of a sibling list under prefix `pref`. -/
def walkList (pats : List Pth) (pref : Pth) : FForest → List FileEnt
  | .nil => []
  | .cons t ts => walkOne pats pref t ++ walkList pats pref ts
end

mutual
/-- Every file of a tree, without any exclusion (the raw content of the
directory, as copied by `shutil.copytree`). -/
def allOne (pref : Pth) : FTree → List FileEnt
  | .file n sz => [⟨pjoin pref n, sz⟩]
  | .dir n cs => allList (pjoin pref n) cs
/-- Every file of a sibling list, without any exclusion. -/
def allList (pref : Pth) : FForest → List FileEnt
  | .nil => []
  | .cons t ts => allOne pref t ++ allList pref ts
end

/-- The script-relative path of `CONFIG['content_dir']`. -/
def contentRoot : Pth := "content".data

/-- Persisted metadata record of one archive (the JSON sidecar/embedded
file written by `create_backup`; the `datetime` human-readable field is
omitted as derived display data). -/
structure Metadata where
  name : Pth
  timestamp : Nat
  description : Pth
  content_size : Nat
  file_count : Nat
deriving DecidableEq

/-- Storage representation of an archive. -/
inductive BKind where
  | compressed
  | directory
deriving DecidableEq

/-- One entry of the backup root directory: a `<base>.zip` archive with its
member files, a `<base>_metadata.json` sidecar (`none` marks an unparsable
one), a subdirectory with its embedded metadata (`none` when
`metadata.json` is absent or unreadable) and contained files, or any other
plain file. -/
inductive DirItem where
  | zipFile (base : Pth) (zsize : Nat) (entries : List FileEnt)
  | metaFile (base : Pth) (md : Option Metadata)
  | subdir (name : Pth) (md : Option Metadata) (files : List FileEnt)
  | otherFile (name : Pth) (size : Nat)
deriving DecidableEq

/-- The on-disk filename of a backup-root entry; a real directory holds
pairwise distinct filenames (`WF`). -/
def itemKey : DirItem → Pth
  | .zipFile base _ _ => base ++ ".zip".data
  | .metaFile base _ => base ++ "_metadata.json".data
  | .subdir n _ _ => n
  | .otherFile n _ => n

/-- Well-formedness of a backup root: entry filenames are pairwise
distinct, as they are in any real directory. -/
def WF (items : List DirItem) : Prop := (items.map itemKey).Nodup

instance (items : List DirItem) : Decidable (WF items) := by
  unfold WF; infer_instance

/-- Lookup of the sidecar `<base>_metadata.json` in the backup root:
`none` when no such file exists, `some none` when it exists but does not
parse, `some (some md)` when it parses to `md`. -/
def findMetaFile (items : List DirItem) (base : Pth) : Option (Option Metadata) :=
  items.findSome? fun it =>
    match it with
    | .metaFile b md => if b = base then some md else none
    | _ => none

/-- One catalog row of `list_backups`: name, representation, creation
timestamp, metadata and computed on-disk size. -/
structure BackupInfo where
  name : Pth
  btype : BKind
  timestamp : Nat
  metadata : Metadata
  size : Nat
deriving DecidableEq

/-- The catalog row contributed by one backup-root entry, in context `ctx`
(the whole backup root, consulted for zip sidecars): a `.zip` with a
parsable sidecar, or a subdirectory with a parsable `metadata.json`;
everything else is skipped, as in the `list_backups` loop. -/
def mkInfo (ctx : List DirItem) : DirItem → Option BackupInfo
  | .zipFile base zsize _ =>
      match findMetaFile ctx base with
      | some (some md) => some ⟨base, .compressed, md.timestamp, md, zsize⟩
      | _ => none
  | .subdir n (some md) files =>
      some ⟨n, .directory, md.timestamp, md, sumSizes files⟩
  | _ => none

/-- The unsorted catalog, in backup-root scan order. -/
def rawList (items : List DirItem) : List BackupInfo :=
  items.filterMap (mkInfo items)

/-- Sort relation of `backups.sort(key=..., reverse=True)`: newer (or
equal) timestamps first; the sort is stable, so equal timestamps keep scan
order. -/
def tsGE (a b : BackupInfo) : Prop := b.timestamp ≤ a.timestamp

instance : DecidableRel tsGE := fun a b => Nat.decLe b.timestamp a.timestamp

instance : IsTotal BackupInfo tsGE :=
  ⟨fun a b => Nat.le_total b.timestamp a.timestamp⟩

instance : IsTrans BackupInfo tsGE :=
  ⟨fun _ _ _ h1 h2 => Nat.le_trans h2 h1⟩

/-- Source `list_backups()`: scan the backup root, keep entries with
readable metadata, sort newest first (stable). -/
def list_backups (items : List DirItem) : List BackupInfo :=
  (rawList items).insertionSort tsGE

/-- Whether deleting catalog entry `b` keeps backup-root entry `it`:
deleting a compressed entry removes `<name>.zip` and
`<name>_metadata.json`; deleting a directory entry removes the
subdirectory `<name>`. -/
def keepItem (b : BackupInfo) (it : DirItem) : Bool :=
  match b.btype with
  | .compressed =>
      match it with
      | .zipFile base _ _ => !(decide (base = b.name))
      | .metaFile base _ => !(decide (base = b.name))
      | _ => true
  | .directory =>
      match it with
      | .subdir n _ _ => !(decide (n = b.name))
      | _ => true

/-- Deletion of one selected catalog entry from the backup root
(`os.remove` of archive and sidecar, or `shutil.rmtree`). -/
def deleteOne (items : List DirItem) (b : BackupInfo) : List DirItem :=
  items.filter (keepItem b)

/-- Source `cleanup_old_backups()`: list the catalog; if it does not exceed
the limit do nothing, else delete the trailing (oldest)
`len(backups) - max_backups` entries of the newest-first listing. -/
def cleanup_old_backups (items : List DirItem) (maxB : Nat) : List DirItem :=
  let backups := list_backups items
  if backups.length ≤ maxB then items
  else
    let backups_to_delete := backups.length - maxB
    let old_backups := backups.drop (backups.length - backups_to_delete)
    old_backups.foldl deleteOne items

/-- The configuration fields read by `create_backup`. -/
structure CreateCfg where
  compress : Bool
  config_files : List Pth
  exclude_patterns : List Pth
  max_backups : Nat

/-- The filesystem state read by `create_backup`: backup root, content
tree, and the sizes of those configured config files that exist. -/
structure CState where
  items : List DirItem
  content : FForest
  configSizes : List (Pth × Nat)

/-- The configured config files that pass the `os.path.exists` check of
`create_backup`, with their sizes, in configuration order. -/
def presentConfigs (cfgFiles : List Pth) (sizes : List (Pth × Nat)) : List FileEnt :=
  cfgFiles.filterMap (fun cf => (sizes.lookup cf).map (fun sz => ⟨cf, sz⟩))

/-- The basename of a path (`os.path.basename`). -/
def basename (p : Pth) : Pth :=
  (p.reverse.takeWhile (fun c => !(decide (c = '/')))).reverse

/-- Source `create_backup(description)`. Compressed branch: walk the
content tree with exclusion, add each kept file under its script-relative
path, then append existing config files, counting files and bytes into the
metadata; write the zip and the sidecar. Non-compressed branch: copy the
whole content tree under `content/`, copy existing config files under
`config/`, and write `metadata.json` — the metadata counters are never
updated in this branch. Both branches end by running retention cleanup.
Returns the backup name and the new backup root. -/
def create_backup (cfg : CreateCfg) (st : CState) (dt : DateTime) (now : Nat)
    (desc : Pth) : Pth × List DirItem :=
  let backup_name := get_backup_filename dt
  if cfg.compress then
    let contentEntries := walkList cfg.exclude_patterns contentRoot st.content
    let cfgEntries := presentConfigs cfg.config_files st.configSizes
    let entries := contentEntries ++ cfgEntries
    let md : Metadata :=
      ⟨backup_name, now, desc, sumSizes entries, entries.length⟩
    let items1 := st.items ++
      [DirItem.zipFile backup_name (sumSizes entries) entries,
       DirItem.metaFile backup_name (some md)]
    (backup_name, cleanup_old_backups items1 cfg.max_backups)
  else
    let files := allList contentRoot st.content ++
      (presentConfigs cfg.config_files st.configSizes).map
        (fun f => ⟨"config/".data ++ basename f.path, f.size⟩)
    let md : Metadata := ⟨backup_name, now, desc, 0, 0⟩
    let items1 := st.items ++ [DirItem.subdir backup_name (some md) files]
    (backup_name, cleanup_old_backups items1 cfg.max_backups)

/-- The configuration fields read by `restore_backup`. -/
structure RestoreCfg where
  config_files : List Pth

/-- The filesystem state touched by `restore_backup`: backup root, content
directory (`none` when it does not exist; otherwise its files at
root-relative paths), and which configured config files currently exist. -/
structure RState where
  items : List DirItem
  content : Option (List FileEnt)
  configsPresent : List Pth
deriving DecidableEq

/-- Steps of the restore body that touch the filesystem and can raise. -/
inductive RStep where
  | stage
  | snapshot
  | removeOld
  | copyNew
  | overlay
deriving DecidableEq

/-- Failures of `restore_backup`: the `ValueError` for an unknown name, or
a filesystem failure raised by one of the body steps. -/
inductive RErr where
  | notFound
  | stepFail (s : RStep)
deriving DecidableEq

instance : DecidableEq (Except RErr Bool) := fun x y =>
  match x, y with
  | .ok a, .ok b =>
      if h : a = b then isTrue (congrArg Except.ok h)
      else isFalse (fun he => h (Except.ok.inj he))
  | .error a, .error b =>
      if h : a = b then isTrue (congrArg Except.error h)
      else isFalse (fun he => h (Except.error.inj he))
  | .ok _, .error _ => isFalse (fun he => Except.noConfusion he)
  | .error _, .ok _ => isFalse (fun he => Except.noConfusion he)

/-- Name of the staging directory `temp_restore_{int(time.time())}`. -/
def tempName (now : Nat) : Pth := "temp_restore_".data ++ (Nat.repr now).data

/-- Name of the safety snapshot `pre_restore_{get_backup_filename()}`. -/
def preName (dt : DateTime) : Pth := "pre_restore_".data ++ get_backup_filename dt

/-- Member list of the zip archive `<base>.zip` in the backup root. -/
def getZipEntries (items : List DirItem) (base : Pth) : List FileEnt :=
  (items.findSome? fun it =>
    match it with
    | .zipFile b _ es => if b = base then some es else none
    | _ => none).getD []

/-- File list of the backup subdirectory `<name>` in the backup root. -/
def getDirFiles (items : List DirItem) (name : Pth) : List FileEnt :=
  (items.findSome? fun it =>
    match it with
    | .subdir n _ fs => if n = name then some fs else none
    | _ => none).getD []

/-- The staged `content/` subtree marker path. -/
def contentPre : Pth := "content/".data

/-- The staged `config/` subtree marker path. -/
def configPre : Pth := "config/".data

/-- Files of the staged set below `pre`, re-rooted (what
`shutil.copytree(temp_dir/content, content_dir)` materialises). -/
def stripUnder (pre : Pth) (fs : List FileEnt) : List FileEnt :=
  fs.filterMap fun f =>
    if pre <+: f.path then some ⟨f.path.drop pre.length, f.size⟩ else none

/-- The `shutil.rmtree(temp_dir)` call of the `finally` block: the staging
subdirectory is removed from the backup root. -/
def removeTemp (now : Nat) (st : RState) : RState :=
  { st with
    items := st.items.filter fun it =>
      match it with
      | .subdir n _ _ => !(decide (n = tempName now))
      | _ => true }

/-- Config-overlay loop of `restore_backup`: for each configured config
file whose basename exists under the staged `config/`, `shutil.copy2` it
onto its configured location (so it exists afterwards). -/
def overlayConfigs (cfgFiles : List Pth) (staged : List FileEnt)
    (present : List Pth) : List Pth :=
  cfgFiles.foldl
    (fun acc cf =>
      if (configPre ++ basename cf) ∈ staged.map (fun f => f.path) then
        (if cf ∈ acc then acc else acc ++ [cf])
      else acc)
    present

/-- The config-overlay step, guarded by `os.path.exists(temp_dir/config)`. -/
def restoreOverlay (cfg : RestoreCfg) (st : RState) (staged : List FileEnt)
    (fault : Option RStep) : Except RErr Bool × RState :=
  if staged.any (fun f => decide (configPre <+: f.path)) then
    if fault = some RStep.overlay then (.error (.stepFail .overlay), st)
    else
      (.ok true,
        { st with configsPresent := overlayConfigs cfg.config_files staged st.configsPresent })
  else (.ok true, st)

/-- The `shutil.copytree(content_backup_path, content_dir)` step. -/
def restoreCopyNew (cfg : RestoreCfg) (st : RState) (staged : List FileEnt)
    (fault : Option RStep) : Except RErr Bool × RState :=
  if fault = some RStep.copyNew then (.error (.stepFail .copyNew), st)
  else restoreOverlay cfg { st with content := some (stripUnder contentPre staged) }
    staged fault

/-- Step 5 of the restore body: when the staged set has a `content/`
subtree, remove the current content directory (if any) and copy the staged
one into its place; then the config overlay. -/
def restoreSwap (cfg : RestoreCfg) (st : RState) (staged : List FileEnt)
    (fault : Option RStep) : Except RErr Bool × RState :=
  if staged.any (fun f => decide (contentPre <+: f.path)) then
    match st.content with
    | some _ =>
        if fault = some RStep.removeOld then (.error (.stepFail .removeOld), st)
        else restoreCopyNew cfg { st with content := none } staged fault
    | none => restoreCopyNew cfg st staged fault
  else restoreOverlay cfg st staged fault

/-- The staged file set of step 3: the members of the zip when the archive
is compressed (`zipf.extractall(temp_dir)`), or the files of the backup
directory when it is a tree copy (`shutil.copytree(path, temp_dir)`). -/
def stagedSet (st : RState) (binfo : BackupInfo) : List FileEnt :=
  match binfo.btype with
  | .compressed => getZipEntries st.items binfo.name
  | .directory => getDirFiles st.items binfo.name

/-- Steps 3–5 of the restore body (the inner `try` block): stage the
archive, snapshot current content, swap the content tree, overlay staged
config files. `fault` injects a failure at the named step, provided that
step actually executes; the function then returns the raised error and the
state at that point.  The staged file set is returned to the caller only
through its effects. -/
def restoreBody (cfg : RestoreCfg) (st0 : RState) (binfo : BackupInfo)
    (dt : DateTime) (fault : Option RStep) : Except RErr Bool × RState :=
  -- step 3: extract the zip / copy the directory into the staging area
  if fault = some RStep.stage then (.error (.stepFail .stage), st0) else
  -- step 4: safety snapshot of the current content, when it exists
  match st0.content with
  | some cf =>
      if fault = some RStep.snapshot then (.error (.stepFail .snapshot), st0)
      else
        -- step 5: swap content, then overlay configs
        restoreSwap cfg
          { st0 with items := st0.items ++ [DirItem.subdir (preName dt) none cf] }
          (stagedSet st0 binfo) fault
  | none => restoreSwap cfg st0 (stagedSet st0 binfo) fault


/-- Source `restore_backup(backup_name)`: look the name up in
`list_backups()` (raising `ValueError` when absent), ask for confirmation
(returning `False` when declined), create the staging directory, run the
body, and in all cases remove the staging directory again (`finally`),
re-raising any body failure. `confirm` is the caller-supplied answer to the
interactive prompt. -/
def restore_backup (cfg : RestoreCfg) (st : RState) (backup_name : Pth)
    (confirm : Bool) (now : Nat) (dt : DateTime) (fault : Option RStep) :
    Except RErr Bool × RState :=
  match (list_backups st.items).find? (fun b => decide (b.name = backup_name)) with
  | none => (.error .notFound, st)
  | some binfo =>
    if confirm then
      let st1 : RState :=
        { st with items := st.items ++ [DirItem.subdir (tempName now) none []] }
      let r := restoreBody cfg st1 binfo dt fault
      (r.1, removeTemp now r.2)
    else (.ok false, st)

/-- Whether any backup-root entry refers to catalog name `nm` (its archive
file, sidecar, or backup subdirectory). -/
def itemRefersTo (nm : Pth) : DirItem → Bool
  | .zipFile base _ _ => decide (base = nm)
  | .metaFile base _ => decide (base = nm)
  | .subdir n _ _ => decide (n = nm)
  | .otherFile _ _ => false

/-- Freshness of a new backup name: nothing in the backup root refers to
it yet. -/
def freshName (items : List DirItem) (nm : Pth) : Prop :=
  ∀ it ∈ items, itemRefersTo nm it = false

instance (items : List DirItem) (nm : Pth) : Decidable (freshName items nm) := by
  unfold freshName; infer_instance

/-- Number and total size of the non-excluded files under the content
directory (what claim C1 says the metadata counters record). -/
def nonExcluded (pats : List Pth) (content : FForest) : List FileEnt :=
  (allList contentRoot content).filter (fun f => !should_exclude pats f.path)

/-- Whether the backup root contains the staging directory of instant
`now`. -/
def hasTempDir (items : List DirItem) (now : Nat) : Bool :=
  items.any fun it =>
    match it with
    | .subdir n _ _ => decide (n = tempName now)
    | _ => false

/-- Claim C1 as stated: after every successful `create`, the catalog holds
exactly one new record, whose `file_count` is the number of non-excluded
content files plus the existing config files and whose `content_size` is
their summed byte size — for the compressed and for the directory
representation alike. -/
def claimC1 : Prop :=
  ∀ (cfg : CreateCfg) (st : CState) (dt : DateTime) (now : Nat) (desc : Pth),
    freshName st.items (get_backup_filename dt) →
    WF st.items →
    (list_backups st.items).length < cfg.max_backups →
    ∃ newRec : BackupInfo,
      (list_backups (create_backup cfg st dt now desc).2).Perm
        (newRec :: list_backups st.items) ∧
      newRec.name ∉ (list_backups st.items).map (fun b => b.name) ∧
      newRec.metadata.file_count =
        (nonExcluded cfg.exclude_patterns st.content).length +
          (presentConfigs cfg.config_files st.configSizes).length ∧
      newRec.metadata.content_size =
        sumSizes (nonExcluded cfg.exclude_patterns st.content) +
          sumSizes (presentConfigs cfg.config_files st.configSizes)

/-- Claim C3 as stated: over any run of creates (instants nondecreasing at
the second granularity the identifier is built from), identifiers are
pairwise distinct and strictly increasing as sortable strings. -/
def claimC3 : Prop :=
  ∀ d1 d2 : DateTime, validDT d1 → validDT d2 → dtKey d1 ≤ dtKey d2 →
    List.Lex (· < ·) (get_backup_filename d1) (get_backup_filename d2)

/-- Claim C4 as stated: whenever a restore that found current content
succeeds, the pre-restore safety snapshot is afterwards discoverable
through `list_backups`. -/
def claimC4 : Prop :=
  ∀ (cfg : RestoreCfg) (st : RState) (nm : Pth) (confirm : Bool) (now : Nat)
    (dt : DateTime),
    st.content.isSome →
    (restore_backup cfg st nm confirm now dt none).1 = .ok true →
    preName dt ∈
      (list_backups (restore_backup cfg st nm confirm now dt none).2.items).map
        (fun b => b.name)

/-- Catalog identity of a listing row: its name and representation. -/
def infoKey (b : BackupInfo) : Pth × BKind := (b.name, b.btype)

/-- Whether deleting `d` also hits the row `b` (same name and kind). -/
def sameKeyB (d b : BackupInfo) : Bool :=
  decide (d.name = b.name) && decide (d.btype = b.btype)

/-- Whether deleting all of `ds` hits the row `b`. -/
def hitBy (ds : List BackupInfo) (b : BackupInfo) : Bool :=
  ds.any (fun d => sameKeyB d b)

/-- A concrete instant used to exercise the identifier generator. -/
def d0 : DateTime := ⟨2026, 1, 2, 3, 4, 5⟩

/-- Whether the backup root holds a readable metadata record for `base`
(a parsable sidecar `<base>_metadata.json`). -/
def hasRecord (items : List DirItem) (base : Pth) : Bool :=
  match findMetaFile items base with
  | some (some _) => true
  | _ => false

/-- Metadata of a first concrete archive used by witnesses. -/
def mdA : Metadata := ⟨"backup_20260101_000000".data, 10, "a".data, 0, 0⟩

/-- Metadata of a second concrete archive used by witnesses. -/
def mdB : Metadata := ⟨"backup_20260102_000000".data, 20, "b".data, 0, 0⟩

/-- A concrete two-archive backup root used by witnesses. -/
def itemsW : List DirItem :=
  [.zipFile "backup_20260101_000000".data 1 [],
   .metaFile "backup_20260101_000000".data (some mdA),
   .zipFile "backup_20260102_000000".data 2 [],
   .metaFile "backup_20260102_000000".data (some mdB)]

/-- The root `itemsW` plus an orphaned archive, a metadata-less pre-restore
snapshot directory and a stray file, used by the C10 witness. -/
def itemsO : List DirItem :=
  itemsW ++
    [.zipFile "backup_20251231_000000".data 7 [],
     .subdir "pre_restore_backup_20260103_000000".data none [⟨"x.md".data, 3⟩],
     .otherFile "stray.txt".data 4]

/-- Configuration of the C1 counterexample: directory (non-compressed)
representation, no config files. -/
def cfgX : CreateCfg := ⟨false, [], exclude_patterns, 30⟩

/-- State of the C1 counterexample: empty backup root, one content file of
five bytes, no config files on disk. -/
def stX : CState := ⟨[], .cons (.file "a.md".data 5) .nil, []⟩

/-- Configuration of the C1 witness: compressed representation with one
configured config file. -/
def cfgW : CreateCfg := ⟨true, ["config.yaml".data], exclude_patterns, 30⟩

/-- State of the C1 witness: empty backup root, one kept content file, one
excluded `.git` subtree, and an existing config file of two bytes. -/
def stW : CState :=
  ⟨[], .cons (.file "ch1.md".data 4)
        (.cons (.dir ".git".data (.cons (.file "junk".data 9) .nil)) .nil),
    [("config.yaml".data, 2)]⟩

/-- Restore state of the C4 scenario: one directory-form archive holding a
content file, a current content directory, no config files. -/
def st4 : RState :=
  ⟨[DirItem.subdir "backup_20260101_000000".data (some mdA)
      [⟨"content/ch1.md".data, 4⟩]],
    some [⟨"old.md".data, 2⟩], []⟩

/-- Restore state of the C7 witness: one directory-form archive and a
current content directory. -/
def st7 : RState :=
  ⟨[DirItem.subdir "backup_20260102_000000".data (some mdB)
      [⟨"content/ch1.md".data, 4⟩]],
    some [⟨"f.md".data, 1⟩], []⟩

/-- Configuration of the C5 scenario: compressed create with one
configured config file that exists at create time. -/
def cfgC5 : CreateCfg := ⟨true, ["config.yaml".data], exclude_patterns, 30⟩

/-- State of the C5 scenario: empty backup root, one content file, the
config file present with two bytes. -/
def stC5 : CState :=
  ⟨[], .cons (.file "ch1.md".data 6) .nil, [("config.yaml".data, 2)]⟩

/-! ## Lexicographic order of rendered identifiers -/

theorem lexIrrefl (l : Pth) : ¬ List.Lex (· < ·) l l := by
  induction l with
  | nil => intro h; cases h
  | cons a l ih =>
    intro h
    cases h with
    | cons h => exact ih h
    | rel h => exact absurd h (lt_irrefl a)

theorem lexNe {l1 l2 : Pth} (h : List.Lex (· < ·) l1 l2) : l1 ≠ l2 :=
  fun he => absurd (he ▸ h) (lexIrrefl l2)

theorem digitChar_lt :
    ∀ b, b < 10 → ∀ a, a < b → Nat.digitChar a < Nat.digitChar b := by
  decide

theorem padNum_length (w : Nat) : ∀ n, (padNum w n).length = w := by
  induction w with
  | zero => intro n; rfl
  | succ w ih => intro n; simp [padNum, ih]

theorem padNum_lexLt (w : Nat) :
    ∀ a b, a < b → b < 10 ^ w →
      List.Lex (· < ·) (padNum w a) (padNum w b) := by
  induction w with
  | zero =>
    intro a b hab hb
    exact absurd hab (by omega)
  | succ w ih =>
    intro a b hab hb
    have hpos : 0 < 10 ^ w := Nat.pos_pow_of_pos w (by omega)
    have hbd : b / 10 ^ w < 10 := by
      rw [Nat.div_lt_iff_lt_mul hpos]
      calc b < 10 ^ (w + 1) := hb
        _ = 10 * 10 ^ w := by rw [pow_succ]; ring
    by_cases hq : a / 10 ^ w = b / 10 ^ w
    · have hma := Nat.div_add_mod a (10 ^ w)
      have hmb := Nat.div_add_mod b (10 ^ w)
      have hmod : a % 10 ^ w < b % 10 ^ w := by
        rw [hq] at hma; omega
      rw [padNum, padNum, hq]
      exact List.Lex.cons (ih _ _ hmod (Nat.mod_lt _ hpos))
    · have hlt : a / 10 ^ w < b / 10 ^ w :=
        lt_of_le_of_ne (Nat.div_le_div_right (le_of_lt hab)) hq
      exact List.Lex.rel (digitChar_lt _ hbd _ hlt)

theorem lexExtendAppend :
    ∀ {l1 l2 : Pth}, List.Lex (· < ·) l1 l2 → l1.length = l2.length →
      ∀ u v : Pth, List.Lex (· < ·) (l1 ++ u) (l2 ++ v) := by
  intro l1 l2 h
  induction h with
  | nil => intro hlen; simp at hlen
  | cons h ih =>
    intro hlen u v
    exact List.Lex.cons (ih (by simpa using hlen) u v)
  | rel h => intro _ u v; exact List.Lex.rel h

theorem padNum_lexWide (w : Nat) {a b : Nat} (hab : a < b) (hb : b < 10 ^ w)
    (u v : Pth) : List.Lex (· < ·) (padNum w a ++ u) (padNum w b ++ v) :=
  lexExtendAppend (padNum_lexLt w a b hab hb)
    (by rw [padNum_length, padNum_length]) u v

/-- Identifiers of chronologically ordered valid instants compare
strictly in string order (and in particular differ). -/
theorem get_backup_filename_mono (d1 d2 : DateTime)
    (h1 : validDT d1) (h2 : validDT d2) (hk : dtKey d1 < dtKey d2) :
    List.Lex (· < ·) (get_backup_filename d1) (get_backup_filename d2) ∧
      get_backup_filename d1 ≠ get_backup_filename d2 := by
  obtain ⟨hy1, hmo1a, hmo1b, hd1a, hd1b, hh1, hmi1, hs1⟩ := h1
  obtain ⟨hy2, hmo2a, hmo2b, hd2a, hd2b, hh2, hmi2, hs2⟩ := h2
  simp only [dtKey] at hk
  have hlex :
      List.Lex (· < ·) (get_backup_filename d1) (get_backup_filename d2) := by
    unfold get_backup_filename fmtDT
    apply List.Lex.append_left
    rcases Nat.lt_trichotomy d1.year d2.year with hy | hy | hy
    · exact padNum_lexWide 4 hy (by omega) _ _
    · rw [hy]
      apply List.Lex.append_left
      rcases Nat.lt_trichotomy d1.month d2.month with hmo | hmo | hmo
      · exact padNum_lexWide 2 hmo (by omega) _ _
      · rw [hmo]
        apply List.Lex.append_left
        rcases Nat.lt_trichotomy d1.day d2.day with hd | hd | hd
        · exact padNum_lexWide 2 hd (by omega) _ _
        · rw [hd]
          apply List.Lex.append_left
          apply List.Lex.cons
          rcases Nat.lt_trichotomy d1.hour d2.hour with hh | hh | hh
          · exact padNum_lexWide 2 hh (by omega) _ _
          · rw [hh]
            apply List.Lex.append_left
            rcases Nat.lt_trichotomy d1.minute d2.minute with hmi | hmi | hmi
            · exact padNum_lexWide 2 hmi (by omega) _ _
            · rw [hmi]
              apply List.Lex.append_left
              have hs : d1.second < d2.second := by omega
              exact padNum_lexLt 2 _ _ hs (by omega)
            · exact absurd hk (by omega)
          · exact absurd hk (by omega)
        · exact absurd hk (by omega)
      · exact absurd hk (by omega)
    · exact absurd hk (by omega)
  exact ⟨hlex, lexNe hlex⟩

/-! ## Stable sorting commutes with filtering -/

theorem orderedInsert_cons_of_all {a : BackupInfo} {M : List BackupInfo}
    (h : ∀ c ∈ M, tsGE a c) : M.orderedInsert tsGE a = a :: M := by
  cases M with
  | nil => rfl
  | cons c M => exact List.orderedInsert_of_le _ _ (h c (List.mem_cons_self c M))

theorem orderedInsert_filter (p : BackupInfo → Bool) (a : BackupInfo) :
    ∀ L : List BackupInfo, L.Sorted tsGE →
      (L.orderedInsert tsGE a).filter p =
        if p a then (L.filter p).orderedInsert tsGE a else L.filter p := by
  intro L
  induction L with
  | nil =>
    intro _
    by_cases hp : p a <;> simp [hp, List.orderedInsert]
  | cons b L ih =>
    intro hs
    have hsL : L.Sorted tsGE := hs.of_cons
    by_cases hr : tsGE a b
    · rw [List.orderedInsert_of_le _ _ hr]
      by_cases hp : p a
      · have hall : ∀ c ∈ (b :: L).filter p, tsGE a c := by
          intro c hc
          rcases List.mem_cons.mp (List.mem_of_mem_filter hc) with rfl | hcL
          · exact hr
          · exact Trans.trans hr (List.rel_of_sorted_cons hs c hcL)
        rw [if_pos hp, orderedInsert_cons_of_all hall]
        simp [List.filter_cons, hp]
      · rw [if_neg hp]
        simp [List.filter_cons, hp]
    · have hoi : (b :: L).orderedInsert tsGE a = b :: L.orderedInsert tsGE a := by
        simp [List.orderedInsert, hr]
      have hoi2 : ∀ M : List BackupInfo,
          (b :: M).orderedInsert tsGE a = b :: M.orderedInsert tsGE a := by
        intro M; simp [List.orderedInsert, hr]
      rw [hoi]
      by_cases hp : p a <;> by_cases hpb : p b <;>
        simp [List.filter_cons, hp, hpb, ih hsL, hoi2]

theorem insertionSort_filter (p : BackupInfo → Bool) :
    ∀ l : List BackupInfo,
      (l.insertionSort tsGE).filter p = (l.filter p).insertionSort tsGE := by
  intro l
  induction l with
  | nil => rfl
  | cons a l ih =>
    have hs : (l.insertionSort tsGE).Sorted tsGE := List.sorted_insertionSort tsGE l
    simp only [List.insertionSort, List.filter_cons]
    rw [orderedInsert_filter p a _ hs, ih]
    by_cases hp : p a <;> simp [hp, List.insertionSort]

/-! ## Deletion of catalog entries as backup-root filtering -/

theorem findMetaFile_filter (p : DirItem → Bool) (items : List DirItem) (base : Pth)
    (h : ∀ md, DirItem.metaFile base md ∈ items →
      p (DirItem.metaFile base md) = true) :
    findMetaFile (items.filter p) base = findMetaFile items base := by
  induction items with
  | nil => rfl
  | cons it items ih =>
    have ih' := ih (fun md hm => h md (List.mem_cons_of_mem _ hm))
    by_cases hp : p it
    · match it with
      | .metaFile b md =>
        by_cases hb : b = base
        · subst hb
          simp [findMetaFile, List.filter_cons, hp, List.findSome?_cons]
        · simp only [findMetaFile, List.filter_cons, hp, if_pos]
          simp only [List.findSome?_cons, if_neg hb]
          exact ih'
      | .zipFile b z es => simpa [findMetaFile, List.filter_cons, hp] using ih'
      | .subdir n md fs => simpa [findMetaFile, List.filter_cons, hp] using ih'
      | .otherFile n sz => simpa [findMetaFile, List.filter_cons, hp] using ih'
    · match it with
      | .metaFile b md =>
        have hb : ¬ b = base := fun he => by
          subst he
          exact absurd (h md (List.mem_cons_self _ _)) (by simpa using hp)
        simp only [findMetaFile, List.filter_cons, hp, if_neg]
        simp only [List.findSome?_cons, if_neg hb]
        exact ih'
      | .zipFile b z es => simpa [findMetaFile, List.filter_cons, hp] using ih'
      | .subdir n md fs => simpa [findMetaFile, List.filter_cons, hp] using ih'
      | .otherFile n sz => simpa [findMetaFile, List.filter_cons, hp] using ih'

theorem filterMap_comm_filter {α β : Type} (f : α → Option β) (p : α → Bool)
    (q : β → Bool) :
    ∀ l : List α, (∀ a ∈ l, ∀ b, f a = some b → p a = q b) →
      (l.filter p).filterMap f = (l.filterMap f).filter q := by
  intro l
  induction l with
  | nil => intro _; rfl
  | cons a l ih =>
    intro h
    have ih' := ih (fun a ha b hb => h a (List.mem_cons_of_mem _ ha) b hb)
    by_cases hp : p a
    · cases hf : f a with
      | none => simp [List.filter_cons, hp, List.filterMap_cons, hf, ih']
      | some b =>
        have hq : q b = true := by rw [← h a (List.mem_cons_self _ _) b hf]; exact hp
        simp [List.filter_cons, hp, List.filterMap_cons, hf, hq, ih']
    · cases hf : f a with
      | none => simp [List.filter_cons, hp, List.filterMap_cons, hf, ih']
      | some b =>
        have hq : q b = false := by
          rw [← h a (List.mem_cons_self _ _) b hf]; simpa using hp
        simp [List.filter_cons, hp, List.filterMap_cons, hf, hq, ih']

theorem keepItem_meta_of_zip {d : BackupInfo} {base : Pth}
    (hz : ∀ zsz es, keepItem d (DirItem.zipFile base zsz es) = true) :
    ∀ md, keepItem d (DirItem.metaFile base md) = true := by
  intro md
  cases hbt : d.btype <;> simp only [keepItem, hbt]
  have := hz 0 []
  simp only [keepItem, hbt] at this
  exact this

theorem mkInfo_deleteOne (items : List DirItem) (d : BackupInfo) (it : DirItem)
    (hit : it ∈ items.filter (keepItem d)) :
    mkInfo (items.filter (keepItem d)) it = mkInfo items it := by
  match it with
  | .zipFile base zsize es =>
    have hkeep : keepItem d (DirItem.zipFile base zsize es) = true :=
      List.of_mem_filter hit
    have hz : ∀ zsz es2, keepItem d (DirItem.zipFile base zsz es2) = true := by
      intro zsz es2
      cases hbt : d.btype <;> simp only [keepItem, hbt] at hkeep ⊢
      · exact hkeep
    have hmeta := findMetaFile_filter (keepItem d) items base
      (fun md _ => keepItem_meta_of_zip hz md)
    simp only [mkInfo, hmeta]
  | .metaFile b md => rfl
  | .subdir n md fs => cases md <;> rfl
  | .otherFile n sz => rfl

theorem rawList_deleteOne (items : List DirItem) (d : BackupInfo) :
    rawList (deleteOne items d) =
      (rawList items).filter (fun b => !(sameKeyB d b)) := by
  unfold deleteOne rawList
  rw [List.filterMap_congr (g := mkInfo items) (mkInfo_deleteOne items d)]
  apply filterMap_comm_filter
  intro it _ b hb
  match it with
  | .zipFile base zsize es =>
    simp only [mkInfo] at hb
    match hmf : findMetaFile items base with
    | some (some md) =>
      rw [hmf] at hb
      cases hb
      cases hbt : d.btype <;>
        simp [keepItem, hbt, sameKeyB, eq_comm]
    | some none => rw [hmf] at hb; cases hb
    | none => rw [hmf] at hb; cases hb
  | .metaFile bb md => simp [mkInfo] at hb
  | .subdir n md fs =>
    cases md with
    | none => simp [mkInfo] at hb
    | some m =>
      simp only [mkInfo] at hb
      cases hb
      cases hbt : d.btype <;>
        simp [keepItem, hbt, sameKeyB, eq_comm]
  | .otherFile n sz => simp [mkInfo] at hb

theorem rawList_deleteList :
    ∀ (ds : List BackupInfo) (items : List DirItem),
      rawList (ds.foldl deleteOne items) =
        (rawList items).filter (fun b => !(hitBy ds b)) := by
  intro ds
  induction ds with
  | nil => intro items; simp [hitBy]
  | cons d ds ih =>
    intro items
    rw [List.foldl_cons, ih, rawList_deleteOne, List.filter_filter]
    apply List.filter_congr
    intro b _
    simp [hitBy, Bool.and_comm]

theorem list_backups_deleteList (ds : List BackupInfo) (items : List DirItem) :
    list_backups (ds.foldl deleteOne items) =
      (list_backups items).filter (fun b => !(hitBy ds b)) := by
  unfold list_backups
  rw [rawList_deleteList, ← insertionSort_filter]

/-! ## Pairwise-distinct catalog keys from directory well-formedness -/

theorem pairwise_filterMap_of {α β : Type} {R : α → α → Prop} {S : β → β → Prop}
    (f : α → Option β)
    (H : ∀ a a' b b', R a a' → f a = some b → f a' = some b' → S b b') :
    ∀ {l : List α}, l.Pairwise R → (l.filterMap f).Pairwise S := by
  intro l hl
  induction hl with
  | nil => simp
  | @cons a l ha _ ih =>
    cases hf : f a with
    | none => simpa [List.filterMap_cons, hf] using ih
    | some b =>
      rw [List.filterMap_cons, hf]
      refine List.Pairwise.cons ?_ ih
      intro b' hb'
      obtain ⟨a', ha', hfa'⟩ := List.mem_filterMap.mp hb'
      exact H a a' b b' (ha a' ha') hf hfa'

theorem rawList_key_pairwise (items : List DirItem) (hwf : WF items) :
    (rawList items).Pairwise (fun a b => infoKey a ≠ infoKey b) := by
  unfold WF at hwf
  unfold List.Nodup at hwf
  have hp : items.Pairwise (fun a b => itemKey a ≠ itemKey b) :=
    (List.pairwise_map.mp hwf)
  refine pairwise_filterMap_of (mkInfo items) ?_ hp
  intro a a' b b' hne hfa hfa'
  intro hkey
  apply hne
  match a, hfa with
  | .zipFile base zsize es, hfa =>
    match a', hfa' with
    | .zipFile base' zsize' es', hfa' =>
      simp only [mkInfo] at hfa hfa'
      match h1 : findMetaFile items base, h2 : findMetaFile items base' with
      | some (some md), some (some md') =>
        rw [h1] at hfa; rw [h2] at hfa'
        cases hfa; cases hfa'
        simp only [infoKey, Prod.mk.injEq] at hkey
        simp [itemKey, hkey.1]
      | some (some md), some none => rw [h2] at hfa'; cases hfa'
      | some (some md), none => rw [h2] at hfa'; cases hfa'
      | some none, _ => rw [h1] at hfa; cases hfa
      | none, _ => rw [h1] at hfa; cases hfa
    | .metaFile bb md, hfa' => simp [mkInfo] at hfa'
    | .subdir n md fs, hfa' =>
      cases md with
      | none => simp [mkInfo] at hfa'
      | some m =>
        simp only [mkInfo] at hfa hfa'
        match h1 : findMetaFile items base with
        | some (some md) =>
          rw [h1] at hfa
          cases hfa; cases hfa'
          simp [infoKey] at hkey
        | some none => rw [h1] at hfa; cases hfa
        | none => rw [h1] at hfa; cases hfa
    | .otherFile n sz, hfa' => simp [mkInfo] at hfa'
  | .metaFile bb md, hfa => simp [mkInfo] at hfa
  | .subdir n md fs, hfa =>
    cases md with
    | none => simp [mkInfo] at hfa
    | some m =>
      simp only [mkInfo] at hfa
      cases hfa
      match a', hfa' with
      | .zipFile base' zsize' es', hfa' =>
        simp only [mkInfo] at hfa'
        match h2 : findMetaFile items base' with
        | some (some md') =>
          rw [h2] at hfa'
          cases hfa'
          simp [infoKey] at hkey
        | some none => rw [h2] at hfa'; cases hfa'
        | none => rw [h2] at hfa'; cases hfa'
      | .metaFile bb' md', hfa' => simp [mkInfo] at hfa'
      | .subdir n' md' fs', hfa' =>
        cases md' with
        | none => simp [mkInfo] at hfa'
        | some m' =>
          simp only [mkInfo] at hfa'
          cases hfa'
          simp only [infoKey, Prod.mk.injEq] at hkey
          simp [itemKey, hkey.1]
      | .otherFile n' sz', hfa' => simp [mkInfo] at hfa'
  | .otherFile n sz, hfa => simp [mkInfo] at hfa

theorem list_backups_key_pairwise (items : List DirItem) (hwf : WF items) :
    (list_backups items).Pairwise (fun a b => infoKey a ≠ infoKey b) := by
  have hperm := List.perm_insertionSort tsGE (rawList items)
  refine (List.Perm.pairwise_iff ?_ hperm).mpr (rawList_key_pairwise items hwf)
  intro x y h he
  exact h he.symm

/-! ## Retention correctness -/

theorem filter_not_hit_split (M D : List BackupInfo)
    (hpw : (M ++ D).Pairwise (fun a b => infoKey a ≠ infoKey b)) :
    (M ++ D).filter (fun b => !(hitBy D b)) = M := by
  rw [List.filter_append]
  have hcross := (List.pairwise_append.mp hpw).2.2
  have h1 : M.filter (fun b => !(hitBy D b)) = M := by
    rw [List.filter_eq_self]
    intro b hb
    have : hitBy D b = false := by
      rw [Bool.eq_false_iff]
      intro hhit
      obtain ⟨d, hd, hsame⟩ := List.any_eq_true.mp hhit
      have h1 := (Bool.and_eq_true _ _).mp hsame
      have hname : d.name = b.name := of_decide_eq_true h1.1
      have hbt : d.btype = b.btype := of_decide_eq_true h1.2
      exact hcross b hb d hd (by simp [infoKey, hname, hbt])
    simp [this]
  have h2 : D.filter (fun b => !(hitBy D b)) = [] := by
    rw [List.filter_eq_nil_iff]
    intro d hd
    have : hitBy D d = true :=
      List.any_eq_true.mpr ⟨d, hd, by simp [sameKeyB]⟩
    simp [this]
  rw [h1, h2, List.append_nil]

theorem filter_not_hit_drop (L : List BackupInfo) (n : Nat)
    (hpw : L.Pairwise (fun a b => infoKey a ≠ infoKey b)) :
    L.filter (fun b => !(hitBy (L.drop n) b)) = L.take n := by
  have key := filter_not_hit_split (L.take n) (L.drop n)
    (by rw [List.take_append_drop]; exact hpw)
  rw [List.take_append_drop] at key
  exact key

theorem cleanup_eq_deleteList (items : List DirItem) (maxB : Nat)
    (hlen : maxB < (list_backups items).length) :
    cleanup_old_backups items maxB =
      ((list_backups items).drop maxB).foldl deleteOne items := by
  unfold cleanup_old_backups
  rw [if_neg (by omega)]
  have harith : (list_backups items).length -
      ((list_backups items).length - maxB) = maxB := by omega
  show List.foldl deleteOne items
      (List.drop ((list_backups items).length -
        ((list_backups items).length - maxB)) (list_backups items)) =
    List.foldl deleteOne items (List.drop maxB (list_backups items))
  rw [harith]

theorem cleanup_noop (items : List DirItem) (maxB : Nat)
    (h : (list_backups items).length ≤ maxB) :
    cleanup_old_backups items maxB = items := by
  unfold cleanup_old_backups
  rw [if_pos h]

theorem cleanup_listing (items : List DirItem) (maxB : Nat) (hwf : WF items)
    (hlen : maxB < (list_backups items).length) :
    list_backups (cleanup_old_backups items maxB) =
      (list_backups items).take maxB := by
  rw [cleanup_eq_deleteList items maxB hlen, list_backups_deleteList]
  exact filter_not_hit_drop _ maxB (list_backups_key_pairwise items hwf)

theorem deleteList_eq_filter :
    ∀ (ds : List BackupInfo) (items : List DirItem),
      ds.foldl deleteOne items =
        items.filter (fun it => ds.all (fun d => keepItem d it)) := by
  intro ds
  induction ds with
  | nil => intro items; simp
  | cons d ds ih =>
    intro items
    rw [List.foldl_cons, ih]
    unfold deleteOne
    rw [List.filter_filter]
    apply List.filter_congr
    intro it _
    simp [Bool.and_comm]

theorem mem_rawList_elim {items : List DirItem} {b : BackupInfo}
    (hb : b ∈ rawList items) :
    ∃ it ∈ items, mkInfo items it = some b :=
  List.mem_filterMap.mp hb

theorem rawList_compressed_meta {items : List DirItem} {b : BackupInfo}
    (hb : b ∈ rawList items) (hbt : b.btype = .compressed) :
    findMetaFile items b.name = some (some b.metadata) := by
  obtain ⟨it, _, hmk⟩ := mem_rawList_elim hb
  match it, hmk with
  | .zipFile base zsize es, hmk =>
    simp only [mkInfo] at hmk
    match h1 : findMetaFile items base with
    | some (some md) => rw [h1] at hmk; cases hmk; exact h1
    | some none => rw [h1] at hmk; cases hmk
    | none => rw [h1] at hmk; cases hmk
  | .metaFile bb md, hmk => simp [mkInfo] at hmk
  | .subdir n md fs, hmk =>
    cases md with
    | none => simp [mkInfo] at hmk
    | some m => simp only [mkInfo] at hmk; cases hmk; cases hbt
  | .otherFile n sz, hmk => simp [mkInfo] at hmk

theorem rawList_directory_subdir {items : List DirItem} {b : BackupInfo}
    (hb : b ∈ rawList items) (hbt : b.btype = .directory) :
    ∃ fs, DirItem.subdir b.name (some b.metadata) fs ∈ items := by
  obtain ⟨it, hmem, hmk⟩ := mem_rawList_elim hb
  match it, hmk with
  | .zipFile base zsize es, hmk =>
    simp only [mkInfo] at hmk
    match h1 : findMetaFile items base with
    | some (some md) => rw [h1] at hmk; cases hmk; cases hbt
    | some none => rw [h1] at hmk; cases hmk
    | none => rw [h1] at hmk; cases hmk
  | .metaFile bb md, hmk => simp [mkInfo] at hmk
  | .subdir n md fs, hmk =>
    cases md with
    | none => simp [mkInfo] at hmk
    | some m =>
      simp only [mkInfo] at hmk
      cases hmk
      exact ⟨fs, hmem⟩
  | .otherFile n sz, hmk => simp [mkInfo] at hmk

theorem mem_list_backups_iff_raw {items : List DirItem} {b : BackupInfo} :
    b ∈ list_backups items ↔ b ∈ rawList items := by
  unfold list_backups
  exact (List.perm_insertionSort tsGE (rawList items)).mem_iff

/-! ## Claim C9: the path filter -/

theorem should_exclude_any_iff (pats : List Pth) (P : Pth) :
    should_exclude pats P = true ↔ ∃ T ∈ pats, T <:+: P := by
  simp [should_exclude]

/-- C9: `should_exclude(P)` is true exactly when some configured exclusion
token occurs in `P` as a literal substring; in particular a path containing
a token is excluded, and a path containing none is not. -/
theorem claimC9_thm (pats : List Pth) (P : Pth) :
    should_exclude pats P = true ↔ ∃ T ∈ pats, T <:+: P := by
  simp [should_exclude]

/-! ## Claim C3: identifier uniqueness and monotonicity -/

/-- C3 counterexample: two create calls during the same wall-clock second
(creation-ordered, instants equal at the `%Y%m%d_%H%M%S` granularity)
receive the same identifier, so the identifiers of a creation-ordered run
are neither pairwise distinct nor strictly increasing. -/
theorem claimC3_false : ¬ claimC3 := by
  intro h
  exact absurd (h d0 d0 (by decide) (by decide) (le_refl _)) (lexIrrefl _)

/-- C3 amended: identifiers are pairwise distinct and strictly increasing
as sortable strings across creates whose instants strictly increase at
second granularity (the format's resolution); only same-second creates
collide. -/
theorem claimC3_amended (d1 d2 : DateTime)
    (h1 : validDT d1) (h2 : validDT d2) (hk : dtKey d1 < dtKey d2) :
    List.Lex (· < ·) (get_backup_filename d1) (get_backup_filename d2) ∧
      get_backup_filename d1 ≠ get_backup_filename d2 :=
  get_backup_filename_mono d1 d2 h1 h2 hk

/-- Witness for C3 amended, at two concrete instants one second apart. -/
theorem claimC3_amended_witness :
    List.Lex (· < ·) (get_backup_filename ⟨2026, 1, 2, 3, 4, 5⟩)
        (get_backup_filename ⟨2026, 1, 2, 3, 4, 6⟩) ∧
      get_backup_filename ⟨2026, 1, 2, 3, 4, 5⟩ ≠
        get_backup_filename ⟨2026, 1, 2, 3, 4, 6⟩ :=
  claimC3_amended ⟨2026, 1, 2, 3, 4, 5⟩ ⟨2026, 1, 2, 3, 4, 6⟩
    (by decide) (by decide) (by decide)


/-! ## The pruned walk equals plain substring filtering -/

theorem should_exclude_mono {pats : List Pth} {p q : Pth}
    (hex : should_exclude pats p = true) (hpre : p <+: q) :
    should_exclude pats q = true := by
  obtain ⟨T, hT, hinf⟩ := (should_exclude_any_iff pats p).mp hex
  exact (should_exclude_any_iff pats q).mpr ⟨T, hT, hinf.trans hpre.isInfix⟩

mutual
theorem allOne_path_pref (pref : Pth) (t : FTree) :
    ∀ f ∈ allOne pref t, pref <+: f.path := by
  match t with
  | .file n sz =>
    intro f hf
    simp only [allOne, List.mem_singleton] at hf
    subst hf
    exact ⟨'/' :: n, rfl⟩
  | .dir n cs =>
    intro f hf
    simp only [allOne] at hf
    exact (List.prefix_append pref ('/' :: n)).trans (allList_path_pref _ cs f hf)
theorem allList_path_pref (pref : Pth) (ts : FForest) :
    ∀ f ∈ allList pref ts, pref <+: f.path := by
  match ts with
  | .nil => intro f hf; simp [allList] at hf
  | .cons t ts =>
    intro f hf
    simp only [allList, List.mem_append] at hf
    rcases hf with hf | hf
    · exact allOne_path_pref pref t f hf
    · exact allList_path_pref pref ts f hf
end

mutual
theorem walkOne_eq_filter (pats : List Pth) (pref : Pth) (t : FTree) :
    walkOne pats pref t =
      (allOne pref t).filter (fun f => !should_exclude pats f.path) := by
  match t with
  | .file n sz =>
    by_cases hex : should_exclude pats (pjoin pref n) <;>
      simp [walkOne, allOne, List.filter_cons, hex]
  | .dir n cs =>
    by_cases hex : should_exclude pats (pjoin pref n)
    · simp only [walkOne, allOne, hex, if_pos]
      rw [eq_comm, List.filter_eq_nil_iff]
      intro f hf
      have hkill := should_exclude_mono hex (allList_path_pref (pjoin pref n) cs f hf)
      simp [hkill]
    · simp only [walkOne, allOne, hex, if_neg, Bool.false_eq_true, not_false_iff]
      exact walkList_eq_filter pats (pjoin pref n) cs
theorem walkList_eq_filter (pats : List Pth) (pref : Pth) (ts : FForest) :
    walkList pats pref ts =
      (allList pref ts).filter (fun f => !should_exclude pats f.path) := by
  match ts with
  | .nil => rfl
  | .cons t ts =>
    simp only [walkList, allList, List.filter_append]
    rw [walkOne_eq_filter pats pref t, walkList_eq_filter pats pref ts]
end

theorem sumSizes_append (a b : List FileEnt) :
    sumSizes (a ++ b) = sumSizes a + sumSizes b := by
  simp [sumSizes]

/-! ## Creating a backup adds exactly one catalog record -/

theorem findMetaFile_append (A B : List DirItem) (base : Pth) :
    findMetaFile (A ++ B) base =
      match findMetaFile A base with
      | some x => some x
      | none => findMetaFile B base := by
  induction A with
  | nil => simp [findMetaFile]
  | cons it A ih =>
    match it with
    | .metaFile b md =>
      by_cases hb : b = base
      · simp [findMetaFile, List.cons_append, List.findSome?_cons, hb]
      · simp only [findMetaFile, List.cons_append, List.findSome?_cons, if_neg hb]
        simpa [findMetaFile] using ih
    | .zipFile b z es =>
      simp only [findMetaFile, List.cons_append, List.findSome?_cons]
      simpa [findMetaFile] using ih
    | .subdir n md fs =>
      simp only [findMetaFile, List.cons_append, List.findSome?_cons]
      simpa [findMetaFile] using ih
    | .otherFile n sz =>
      simp only [findMetaFile, List.cons_append, List.findSome?_cons]
      simpa [findMetaFile] using ih

theorem findMetaFile_eq_none_of_fresh {items : List DirItem} {nm : Pth}
    (h : freshName items nm) : findMetaFile items nm = none := by
  induction items with
  | nil => rfl
  | cons it items ih =>
    have ih' := ih (fun x hx => h x (List.mem_cons_of_mem _ hx))
    match it with
    | .metaFile b md =>
      have hb : ¬ b = nm := by
        have := h _ (List.mem_cons_self _ _)
        simpa [itemRefersTo] using this
      simp only [findMetaFile, List.findSome?_cons, if_neg hb]
      exact ih'
    | .zipFile b z es =>
      simp only [findMetaFile, List.findSome?_cons]
      exact ih'
    | .subdir n md fs =>
      simp only [findMetaFile, List.findSome?_cons]
      exact ih'
    | .otherFile n sz =>
      simp only [findMetaFile, List.findSome?_cons]
      exact ih'

theorem rawList_append_generic (items B : List DirItem)
    (hB : ∀ base, (∃ it ∈ items, itemRefersTo base it = true) →
      findMetaFile B base = none) :
    rawList (items ++ B) =
      items.filterMap (mkInfo items) ++ B.filterMap (mkInfo (items ++ B)) := by
  unfold rawList
  rw [List.filterMap_append]
  congr 1
  apply List.filterMap_congr
  intro it hit
  match it with
  | .zipFile base zsize es =>
    have hbase : findMetaFile B base = none :=
      hB base ⟨_, hit, by simp [itemRefersTo]⟩
    have := findMetaFile_append items B base
    simp only [mkInfo]
    rw [this, hbase]
    match findMetaFile items base with
    | some (some md) => rfl
    | some none => rfl
    | none => rfl
  | .metaFile b md => rfl
  | .subdir n md fs => cases md <;> rfl
  | .otherFile n sz => rfl

theorem rawList_append_zip (items : List DirItem) (nm : Pth) (zsz : Nat)
    (es : List FileEnt) (md : Metadata)
    (hfresh : freshName items nm) :
    rawList (items ++
        [DirItem.zipFile nm zsz es, DirItem.metaFile nm (some md)]) =
      rawList items ++ [⟨nm, .compressed, md.timestamp, md, zsz⟩] := by
  rw [rawList_append_generic]
  · congr 1
    have hctx : findMetaFile
        (items ++ [DirItem.zipFile nm zsz es, DirItem.metaFile nm (some md)]) nm =
        some (some md) := by
      rw [findMetaFile_append, findMetaFile_eq_none_of_fresh hfresh]
      simp [findMetaFile, List.findSome?_cons]
    simp [List.filterMap_cons, mkInfo, hctx]
  · intro base ⟨it, hit, href⟩
    have hbase : ¬ nm = base := by
      intro he
      subst he
      exact absurd href (by simp [hfresh it hit])
    simp [findMetaFile, List.findSome?_cons, hbase]

theorem rawList_append_dir (items : List DirItem) (nm : Pth)
    (md : Metadata) (fs : List FileEnt) :
    rawList (items ++ [DirItem.subdir nm (some md) fs]) =
      rawList items ++ [⟨nm, .directory, md.timestamp, md, sumSizes fs⟩] := by
  rw [rawList_append_generic]
  · congr 1
  · intro base _
    simp [findMetaFile, List.findSome?_cons]

theorem list_backups_length_raw (items : List DirItem) :
    (list_backups items).length = (rawList items).length :=
  (List.perm_insertionSort tsGE (rawList items)).length_eq

theorem list_backups_snoc_perm {A items : List DirItem} {x : BackupInfo}
    (h : rawList A = rawList items ++ [x]) :
    (list_backups A).Perm (x :: list_backups items) := by
  unfold list_backups
  rw [h]
  refine (List.perm_insertionSort tsGE _).trans ?_
  exact (List.perm_append_singleton x _).trans
    ((List.perm_insertionSort tsGE _).symm.cons x)

theorem listed_name_refers {items : List DirItem} {b : BackupInfo}
    (hb : b ∈ list_backups items) :
    ∃ it ∈ items, mkInfo items it = some b ∧ itemRefersTo b.name it = true := by
  obtain ⟨it, hit, hmk⟩ := mem_rawList_elim (mem_list_backups_iff_raw.mp hb)
  match it, hmk with
  | .zipFile base zsize es, hmk =>
    simp only [mkInfo] at hmk
    match h1 : findMetaFile items base with
    | some (some md) =>
      rw [h1] at hmk; cases hmk
      exact ⟨_, hit, by simp [mkInfo, h1], by simp [itemRefersTo]⟩
    | some none => rw [h1] at hmk; cases hmk
    | none => rw [h1] at hmk; cases hmk
  | .metaFile bb md, hmk => simp [mkInfo] at hmk
  | .subdir n md fs, hmk =>
    cases md with
    | none => simp [mkInfo] at hmk
    | some m =>
      simp only [mkInfo] at hmk; cases hmk
      exact ⟨_, hit, by simp [mkInfo], by simp [itemRefersTo]⟩
  | .otherFile n sz, hmk => simp [mkInfo] at hmk

theorem fresh_name_not_listed {items : List DirItem} {nm : Pth}
    (hfresh : freshName items nm) :
    nm ∉ (list_backups items).map (fun b => b.name) := by
  intro hmem
  obtain ⟨b, hb, hname⟩ := List.mem_map.mp hmem
  obtain ⟨it, hit, _, href⟩ := listed_name_refers hb
  rw [hname] at href
  exact absurd href (by simp [hfresh it hit])

/-! ## Claim C1: metadata counters of a fresh backup -/

/-- C1 as amended: every successful `create` (fresh name, well-formed root,
catalog under the limit) adds exactly one new catalog record, whose name
was not listed before; in the compressed representation its `file_count`
and `content_size` are exactly the number and summed size of the
non-excluded content files plus the existing config files, but in the
directory (non-compressed) representation both counters are always 0,
because that branch never updates the metadata it writes. -/
theorem claimC1_amended (cfg : CreateCfg) (st : CState) (dt : DateTime)
    (now : Nat) (desc : Pth)
    (hfresh : freshName st.items (get_backup_filename dt))
    (hlen : (list_backups st.items).length < cfg.max_backups) :
    ∃ newRec : BackupInfo,
      (list_backups (create_backup cfg st dt now desc).2).Perm
        (newRec :: list_backups st.items) ∧
      newRec.name = get_backup_filename dt ∧
      newRec.name ∉ (list_backups st.items).map (fun b => b.name) ∧
      newRec.metadata.file_count =
        (if cfg.compress then
          (nonExcluded cfg.exclude_patterns st.content).length +
            (presentConfigs cfg.config_files st.configSizes).length
         else 0) ∧
      newRec.metadata.content_size =
        (if cfg.compress then
          sumSizes (nonExcluded cfg.exclude_patterns st.content) +
            sumSizes (presentConfigs cfg.config_files st.configSizes)
         else 0) := by
  cases hc : cfg.compress
  case false =>
    refine ⟨⟨get_backup_filename dt, .directory, now,
      ⟨get_backup_filename dt, now, desc, 0, 0⟩,
      sumSizes (allList contentRoot st.content ++
        (presentConfigs cfg.config_files st.configSizes).map
          (fun f => ⟨"config/".data ++ basename f.path, f.size⟩))⟩,
      ?_, rfl, ?_, by simp [hc], by simp [hc]⟩
    · have hstep : (create_backup cfg st dt now desc).2 =
          cleanup_old_backups (st.items ++
            [DirItem.subdir (get_backup_filename dt)
              (some ⟨get_backup_filename dt, now, desc, 0, 0⟩)
              (allList contentRoot st.content ++
                (presentConfigs cfg.config_files st.configSizes).map
                  (fun f => ⟨"config/".data ++ basename f.path, f.size⟩))])
            cfg.max_backups := by
        simp [create_backup, hc]
      have hraw := rawList_append_dir st.items (get_backup_filename dt)
        ⟨get_backup_filename dt, now, desc, 0, 0⟩
        (allList contentRoot st.content ++
          (presentConfigs cfg.config_files st.configSizes).map
            (fun f => ⟨"config/".data ++ basename f.path, f.size⟩))
      have hlen1 : (list_backups (st.items ++
          [DirItem.subdir (get_backup_filename dt)
            (some ⟨get_backup_filename dt, now, desc, 0, 0⟩)
            (allList contentRoot st.content ++
              (presentConfigs cfg.config_files st.configSizes).map
                (fun f => ⟨"config/".data ++ basename f.path, f.size⟩))])).length ≤
          cfg.max_backups := by
        rw [list_backups_length_raw, hraw, List.length_append]
        rw [list_backups_length_raw] at hlen
        simpa using hlen
      rw [hstep, cleanup_noop _ _ hlen1]
      exact list_backups_snoc_perm hraw
    · exact fresh_name_not_listed hfresh
  case true =>
    refine ⟨⟨get_backup_filename dt, .compressed, now,
      ⟨get_backup_filename dt, now, desc,
        sumSizes (walkList cfg.exclude_patterns contentRoot st.content ++
          presentConfigs cfg.config_files st.configSizes),
        (walkList cfg.exclude_patterns contentRoot st.content ++
          presentConfigs cfg.config_files st.configSizes).length⟩,
      sumSizes (walkList cfg.exclude_patterns contentRoot st.content ++
        presentConfigs cfg.config_files st.configSizes)⟩,
      ?_, rfl, ?_, ?_, ?_⟩
    · have hstep : (create_backup cfg st dt now desc).2 =
          cleanup_old_backups (st.items ++
            [DirItem.zipFile (get_backup_filename dt)
              (sumSizes (walkList cfg.exclude_patterns contentRoot st.content ++
                presentConfigs cfg.config_files st.configSizes))
              (walkList cfg.exclude_patterns contentRoot st.content ++
                presentConfigs cfg.config_files st.configSizes),
             DirItem.metaFile (get_backup_filename dt)
              (some ⟨get_backup_filename dt, now, desc,
                sumSizes (walkList cfg.exclude_patterns contentRoot st.content ++
                  presentConfigs cfg.config_files st.configSizes),
                (walkList cfg.exclude_patterns contentRoot st.content ++
                  presentConfigs cfg.config_files st.configSizes).length⟩)])
            cfg.max_backups := by
        simp [create_backup, hc]
      have hraw := rawList_append_zip st.items (get_backup_filename dt)
        (sumSizes (walkList cfg.exclude_patterns contentRoot st.content ++
          presentConfigs cfg.config_files st.configSizes))
        (walkList cfg.exclude_patterns contentRoot st.content ++
          presentConfigs cfg.config_files st.configSizes)
        ⟨get_backup_filename dt, now, desc,
          sumSizes (walkList cfg.exclude_patterns contentRoot st.content ++
            presentConfigs cfg.config_files st.configSizes),
          (walkList cfg.exclude_patterns contentRoot st.content ++
            presentConfigs cfg.config_files st.configSizes).length⟩
        hfresh
      have hlen1 : (list_backups (st.items ++
          [DirItem.zipFile (get_backup_filename dt)
            (sumSizes (walkList cfg.exclude_patterns contentRoot st.content ++
              presentConfigs cfg.config_files st.configSizes))
            (walkList cfg.exclude_patterns contentRoot st.content ++
              presentConfigs cfg.config_files st.configSizes),
           DirItem.metaFile (get_backup_filename dt)
            (some ⟨get_backup_filename dt, now, desc,
              sumSizes (walkList cfg.exclude_patterns contentRoot st.content ++
                presentConfigs cfg.config_files st.configSizes),
              (walkList cfg.exclude_patterns contentRoot st.content ++
                presentConfigs cfg.config_files st.configSizes).length⟩)])).length ≤
          cfg.max_backups := by
        rw [list_backups_length_raw, hraw, List.length_append]
        rw [list_backups_length_raw] at hlen
        simpa using hlen
      rw [hstep, cleanup_noop _ _ hlen1]
      exact list_backups_snoc_perm hraw
    · exact fresh_name_not_listed hfresh
    · rw [if_pos rfl]
      show (walkList cfg.exclude_patterns contentRoot st.content ++
          presentConfigs cfg.config_files st.configSizes).length = _
      rw [List.length_append, walkList_eq_filter]
      rfl
    · rw [if_pos rfl]
      show sumSizes (walkList cfg.exclude_patterns contentRoot st.content ++
          presentConfigs cfg.config_files st.configSizes) = _
      rw [sumSizes_append, walkList_eq_filter]
      rfl

/-- C1 counterexample: on a directory-representation create over one
five-byte content file, the recorded `file_count` is 0 although one
non-excluded file was backed up, refuting the claim for the
non-compressed representation. -/
theorem claimC1_false : ¬ claimC1 := by
  intro h
  obtain ⟨nr, hperm, hnot, hfc, hcs⟩ :=
    h cfgX stX d0 100 "x".data (by decide) (by decide) (by decide)
  have hmem : nr ∈ list_backups (create_backup cfgX stX d0 100 "x".data).2 :=
    hperm.mem_iff.mpr (List.mem_cons_self _ _)
  have hall : ∀ x ∈ list_backups (create_backup cfgX stX d0 100 "x".data).2,
      x.metadata.file_count = 0 := by decide
  have h0 := hall nr hmem
  have h1 : (nonExcluded cfgX.exclude_patterns stX.content).length +
      (presentConfigs cfgX.config_files stX.configSizes).length = 1 := by decide
  rw [h1] at hfc
  rw [hfc] at h0
  exact absurd h0 one_ne_zero

/-- Witness for C1 amended: a concrete compressed create over one kept
file, one excluded subtree and one existing config file. -/
theorem claimC1_amended_witness :
    ∃ newRec : BackupInfo,
      (list_backups (create_backup cfgW stW d0 100 "w".data).2).Perm
        (newRec :: list_backups stW.items) ∧
      newRec.name = get_backup_filename d0 ∧
      newRec.name ∉ (list_backups stW.items).map (fun b => b.name) ∧
      newRec.metadata.file_count =
        (if cfgW.compress then
          (nonExcluded cfgW.exclude_patterns stW.content).length +
            (presentConfigs cfgW.config_files stW.configSizes).length
         else 0) ∧
      newRec.metadata.content_size =
        (if cfgW.compress then
          sumSizes (nonExcluded cfgW.exclude_patterns stW.content) +
            sumSizes (presentConfigs cfgW.config_files stW.configSizes)
         else 0) :=
  claimC1_amended cfgW stW d0 100 "w".data (by decide) (by decide)

/-! ## Claim C2: retention trimming -/

/-- C2: with a well-formed backup root whose catalog exceeds the limit,
`cleanup` leaves exactly the `N` most-recently-created entries (the first
`N` of the newest-first stable listing, so ties follow listing order, not
names), every deleted entry is at least as old as every retained one, the
catalog afterwards has at most `N` entries, and deleting a compressed
entry removes both its archive file and its metadata sidecar. -/
theorem claimC2_thm (items : List DirItem) (N : Nat) (hwf : WF items)
    (hlen : N < (list_backups items).length) :
    list_backups (cleanup_old_backups items N) = (list_backups items).take N ∧
    (list_backups (cleanup_old_backups items N)).length ≤ N ∧
    (∀ d ∈ (list_backups items).drop N, ∀ k ∈ (list_backups items).take N,
        d.timestamp ≤ k.timestamp) ∧
    (∀ d ∈ (list_backups items).drop N, d.btype = BKind.compressed →
        (∀ zsz es, DirItem.zipFile d.name zsz es ∉ cleanup_old_backups items N) ∧
        (∀ md, DirItem.metaFile d.name md ∉ cleanup_old_backups items N)) := by
  have hL := cleanup_listing items N hwf hlen
  refine ⟨hL, by rw [hL, List.length_take]; omega, ?_, ?_⟩
  · have hsort : (list_backups items).Sorted tsGE :=
      List.sorted_insertionSort tsGE _
    rw [← List.take_append_drop N (list_backups items)] at hsort
    intro d hd k hk
    exact (List.pairwise_append.mp hsort).2.2 k hk d hd
  · intro d hd hbt
    rw [cleanup_eq_deleteList items N hlen, deleteList_eq_filter]
    constructor
    · intro zsz es hmem
      have hkeep := List.of_mem_filter hmem
      have := List.all_eq_true.mp hkeep d hd
      simp [keepItem, hbt] at this
    · intro md hmem
      have hkeep := List.of_mem_filter hmem
      have := List.all_eq_true.mp hkeep d hd
      simp [keepItem, hbt] at this

/-- Witness for C2 on a concrete two-archive root with limit 1. -/
theorem claimC2_witness :
    list_backups (cleanup_old_backups itemsW 1) = (list_backups itemsW).take 1 ∧
    (list_backups (cleanup_old_backups itemsW 1)).length ≤ 1 ∧
    (∀ d ∈ (list_backups itemsW).drop 1, ∀ k ∈ (list_backups itemsW).take 1,
        d.timestamp ≤ k.timestamp) ∧
    (∀ d ∈ (list_backups itemsW).drop 1, d.btype = BKind.compressed →
        (∀ zsz es, DirItem.zipFile d.name zsz es ∉ cleanup_old_backups itemsW 1) ∧
        (∀ md, DirItem.metaFile d.name md ∉ cleanup_old_backups itemsW 1)) :=
  claimC2_thm itemsW 1 (by decide) (by decide)

/-! ## Claim C8: cleanup idempotence -/

/-- C8: `cleanup` does nothing when the catalog is within the limit, and
running it twice in a row (no intervening create) equals running it once —
the second run deletes nothing. -/
theorem claimC8_thm (items : List DirItem) (N : Nat) (hwf : WF items) :
    ((list_backups items).length ≤ N → cleanup_old_backups items N = items) ∧
    cleanup_old_backups (cleanup_old_backups items N) N =
      cleanup_old_backups items N := by
  refine ⟨fun h => cleanup_noop items N h, ?_⟩
  by_cases h : (list_backups items).length ≤ N
  · rw [cleanup_noop items N h, cleanup_noop items N h]
  · have h2 := cleanup_listing items N hwf (by omega)
    apply cleanup_noop
    rw [h2, List.length_take]
    omega

/-- Witness for C8 on the concrete two-archive root with limit 1. -/
theorem claimC8_witness :
    ((list_backups itemsW).length ≤ 1 → cleanup_old_backups itemsW 1 = itemsW) ∧
    cleanup_old_backups (cleanup_old_backups itemsW 1) 1 =
      cleanup_old_backups itemsW 1 :=
  claimC8_thm itemsW 1 (by decide)

/-! ## Claim C10: retention never touches uncataloged entries -/

/-- C10: retention trimming deletes only what the catalog lists — an
archive with no readable sidecar, a metadata-less snapshot directory
(e.g. a `pre_restore_*` copy), or any stray file is never selected for
deletion and survives every cleanup, so such entries accumulate without
bound. -/
theorem claimC10_thm (items : List DirItem) (N : Nat) (hwf : WF items) :
    (∀ base zsz es, DirItem.zipFile base zsz es ∈ items →
        hasRecord items base = false →
        DirItem.zipFile base zsz es ∈ cleanup_old_backups items N) ∧
    (∀ n fs, DirItem.subdir n none fs ∈ items →
        DirItem.subdir n none fs ∈ cleanup_old_backups items N) ∧
    (∀ n sz, DirItem.otherFile n sz ∈ items →
        DirItem.otherFile n sz ∈ cleanup_old_backups items N) := by
  by_cases hlen : (list_backups items).length ≤ N
  · rw [cleanup_noop items N hlen]
    exact ⟨fun _ _ _ h _ => h, fun _ _ h => h, fun _ _ h => h⟩
  · rw [cleanup_eq_deleteList items N (by omega), deleteList_eq_filter]
    refine ⟨?_, ?_, ?_⟩
    · intro base zsz es hmem horph
      refine List.mem_filter.mpr ⟨hmem, List.all_eq_true.mpr ?_⟩
      intro d hd
      have hdraw : d ∈ rawList items :=
        mem_list_backups_iff_raw.mp (List.mem_of_mem_drop hd)
      cases hbt : d.btype with
      | directory => simp [keepItem, hbt]
      | compressed =>
        simp only [keepItem, hbt, Bool.not_eq_true']
        apply decide_eq_false
        intro he
        have hrec := rawList_compressed_meta hdraw hbt
        rw [← he] at hrec
        simp [hasRecord, hrec] at horph
    · intro n fs hmem
      refine List.mem_filter.mpr ⟨hmem, List.all_eq_true.mpr ?_⟩
      intro d hd
      have hdraw : d ∈ rawList items :=
        mem_list_backups_iff_raw.mp (List.mem_of_mem_drop hd)
      cases hbt : d.btype with
      | compressed => simp [keepItem, hbt]
      | directory =>
        simp only [keepItem, hbt, Bool.not_eq_true']
        apply decide_eq_false
        intro he
        obtain ⟨fs2, hmem2⟩ := rawList_directory_subdir hdraw hbt
        rw [← he] at hmem2
        have hinj := List.inj_on_of_nodup_map (f := itemKey) hwf hmem hmem2
        simp [itemKey] at hinj
    · intro n sz hmem
      refine List.mem_filter.mpr ⟨hmem, List.all_eq_true.mpr ?_⟩
      intro d _
      cases hbt : d.btype <;> simp [keepItem, hbt]

/-- Witness for C10: the orphaned archive, the metadata-less pre-restore
snapshot and the stray file of `itemsO` all survive a cleanup that
actually deletes a listed backup. -/
theorem claimC10_witness :
    DirItem.zipFile "backup_20251231_000000".data 7 [] ∈
        cleanup_old_backups itemsO 1 ∧
    DirItem.subdir "pre_restore_backup_20260103_000000".data none
        [⟨"x.md".data, 3⟩] ∈ cleanup_old_backups itemsO 1 ∧
    DirItem.otherFile "stray.txt".data 4 ∈ cleanup_old_backups itemsO 1 := by
  have h := claimC10_thm itemsO 1 (by decide)
  exact ⟨h.1 _ 7 [] (by decide) (by decide),
    h.2.1 _ [⟨"x.md".data, 3⟩] (by decide),
    h.2.2 _ 4 (by decide)⟩



/-! ## Behaviour of the restore body steps -/

theorem hasTempDir_removeTemp (now : Nat) (st : RState) :
    hasTempDir (removeTemp now st).items now = false := by
  rw [Bool.eq_false_iff]
  intro h
  obtain ⟨it, hit, hm⟩ := List.any_eq_true.mp h
  match it, hm with
  | .subdir n md fs, hm =>
    have hkeep := List.of_mem_filter hit
    simp only [decide_eq_true_eq] at hm
    simp [hm] at hkeep

theorem restoreOverlay_ok (cfg : RestoreCfg) (st : RState) (staged : List FileEnt) :
    (restoreOverlay cfg st staged none).1 = .ok true := by
  by_cases h : staged.any (fun f => decide (configPre <+: f.path)) <;>
    simp [restoreOverlay, h]

theorem restoreCopyNew_ok (cfg : RestoreCfg) (st : RState) (staged : List FileEnt) :
    (restoreCopyNew cfg st staged none).1 = .ok true := by
  simp [restoreCopyNew, restoreOverlay_ok]

theorem restoreSwap_ok (cfg : RestoreCfg) (st : RState) (staged : List FileEnt) :
    (restoreSwap cfg st staged none).1 = .ok true := by
  unfold restoreSwap
  by_cases h : staged.any (fun f => decide (contentPre <+: f.path))
  · rw [if_pos h]
    cases hc : st.content <;> simp [restoreCopyNew_ok]
  · rw [if_neg h]
    exact restoreOverlay_ok cfg st staged

theorem restoreBody_ok (cfg : RestoreCfg) (st : RState) (binfo : BackupInfo)
    (dt : DateTime) :
    (restoreBody cfg st binfo dt none).1 = .ok true := by
  unfold restoreBody
  rw [if_neg (by simp)]
  cases hc : st.content <;> simp [restoreSwap_ok]

theorem restoreOverlay_err (cfg : RestoreCfg) (st : RState) (staged : List FileEnt)
    (fault : Option RStep) (e : RErr)
    (h : (restoreOverlay cfg st staged fault).1 = .error e) :
    ∃ s, e = RErr.stepFail s ∧ fault = some s := by
  unfold restoreOverlay at h
  split at h
  · split at h
    · cases h
      exact ⟨RStep.overlay, rfl, by assumption⟩
    · cases h
  · cases h

theorem restoreCopyNew_err (cfg : RestoreCfg) (st : RState) (staged : List FileEnt)
    (fault : Option RStep) (e : RErr)
    (h : (restoreCopyNew cfg st staged fault).1 = .error e) :
    ∃ s, e = RErr.stepFail s ∧ fault = some s := by
  unfold restoreCopyNew at h
  split at h
  · cases h
    exact ⟨RStep.copyNew, rfl, by assumption⟩
  · exact restoreOverlay_err _ _ _ _ _ h

theorem restoreSwap_err (cfg : RestoreCfg) (st : RState) (staged : List FileEnt)
    (fault : Option RStep) (e : RErr)
    (h : (restoreSwap cfg st staged fault).1 = .error e) :
    ∃ s, e = RErr.stepFail s ∧ fault = some s := by
  unfold restoreSwap at h
  split at h
  · split at h
    · split at h
      · cases h
        exact ⟨RStep.removeOld, rfl, by assumption⟩
      · exact restoreCopyNew_err _ _ _ _ _ h
    · exact restoreCopyNew_err _ _ _ _ _ h
  · exact restoreOverlay_err _ _ _ _ _ h

theorem restoreBody_err (cfg : RestoreCfg) (st : RState) (binfo : BackupInfo)
    (dt : DateTime) (fault : Option RStep) (e : RErr)
    (h : (restoreBody cfg st binfo dt fault).1 = .error e) :
    ∃ s, e = RErr.stepFail s ∧ fault = some s := by
  unfold restoreBody at h
  split at h
  · cases h
    exact ⟨RStep.stage, rfl, by assumption⟩
  · split at h
    · split at h
      · cases h
        exact ⟨RStep.snapshot, rfl, by assumption⟩
      · exact restoreSwap_err _ _ _ _ _ h
    · exact restoreSwap_err _ _ _ _ _ h

theorem restoreBody_stage_err (cfg : RestoreCfg) (st : RState)
    (binfo : BackupInfo) (dt : DateTime) :
    (restoreBody cfg st binfo dt (some RStep.stage)).1 =
      .error (.stepFail RStep.stage) := by
  simp [restoreBody]

theorem restoreBody_snapshot_err (cfg : RestoreCfg) (st : RState)
    (binfo : BackupInfo) (dt : DateTime) (cf : List FileEnt)
    (hcf : st.content = some cf) :
    (restoreBody cfg st binfo dt (some RStep.snapshot)).1 =
      .error (.stepFail RStep.snapshot) := by
  unfold restoreBody
  rw [if_neg (by simp)]
  simp [hcf]

/-! ## Claim C6: restoring an unknown id -/

/-- C6: when the requested name is not in the catalog, `restore_backup`
fails with `NotFound` and returns the state completely unchanged — no
staging directory, no safety snapshot, no content or catalog change. -/
theorem claimC6_thm (cfg : RestoreCfg) (st : RState) (nm : Pth)
    (confirm : Bool) (now : Nat) (dt : DateTime) (fault : Option RStep)
    (habs : nm ∉ (list_backups st.items).map (fun b => b.name)) :
    restore_backup cfg st nm confirm now dt fault = (.error .notFound, st) := by
  have hfind : (list_backups st.items).find?
      (fun b => decide (b.name = nm)) = none := by
    rw [List.find?_eq_none]
    intro b hb
    simp only [decide_eq_true_eq]
    intro he
    exact habs (List.mem_map.mpr ⟨b, hb, he⟩)
  unfold restore_backup
  rw [hfind]

/-- Witness for C6 at a concrete missing id over an empty backup root. -/
theorem claimC6_witness :
    restore_backup ⟨[]⟩ ⟨[], none, []⟩ "missing-id".data true 5 d0 none =
      (.error .notFound, ⟨[], none, []⟩) :=
  claimC6_thm ⟨[]⟩ ⟨[], none, []⟩ "missing-id".data true 5 d0 none (by decide)

/-! ## Claim C7: unconditional staging cleanup and error propagation -/

/-- C7: whatever happens — unknown id, declined confirmation, a failure
injected at any step, or success — the staging directory is absent from
the final state (the `finally` cleanup is unconditional); an error result
is exactly the injected failure (the cleanup never invents or suppresses
one); and a failure at an executing step (stage always, snapshot whenever
current content exists) is re-raised to the caller, while a fault-free
confirmed restore of a found archive returns `ok true`. -/
theorem claimC7_thm (cfg : RestoreCfg) (st : RState) (nm : Pth)
    (confirm : Bool) (now : Nat) (dt : DateTime) (fault : Option RStep)
    (htemp : hasTempDir st.items now = false) :
    hasTempDir (restore_backup cfg st nm confirm now dt fault).2.items now =
      false ∧
    (∀ s, (restore_backup cfg st nm confirm now dt fault).1 =
        .error (.stepFail s) → fault = some s) ∧
    (((list_backups st.items).find? (fun b => decide (b.name = nm))).isSome →
      confirm = true →
      (fault = some RStep.stage →
        (restore_backup cfg st nm confirm now dt fault).1 =
          .error (.stepFail RStep.stage)) ∧
      (fault = some RStep.snapshot → st.content.isSome →
        (restore_backup cfg st nm confirm now dt fault).1 =
          .error (.stepFail RStep.snapshot)) ∧
      (fault = none →
        (restore_backup cfg st nm confirm now dt fault).1 = .ok true)) := by
  rcases hfind : (list_backups st.items).find? (fun b => decide (b.name = nm))
    with _ | binfo
  · have hr : restore_backup cfg st nm confirm now dt fault =
        (.error .notFound, st) := by
      unfold restore_backup
      rw [hfind]
    rw [hr]
    exact ⟨htemp, by simp, by simp [hfind]⟩
  · cases hconfirm : confirm
    case false =>
      have hr : restore_backup cfg st nm false now dt fault =
          (.ok false, st) := by
        unfold restore_backup
        rw [hfind]
        rfl
      rw [hr]
      exact ⟨htemp, by simp, fun _ hc => absurd hc (by simp)⟩
    case true =>
      have hr : restore_backup cfg st nm true now dt fault =
          ((restoreBody cfg
              { st with items := st.items ++ [DirItem.subdir (tempName now) none []] }
              binfo dt fault).1,
            removeTemp now (restoreBody cfg
              { st with items := st.items ++ [DirItem.subdir (tempName now) none []] }
              binfo dt fault).2) := by
        unfold restore_backup
        rw [hfind]
        rfl
      rw [hr]
      dsimp only
      refine ⟨hasTempDir_removeTemp now _, ?_, ?_⟩
      · intro s hs
        obtain ⟨s2, he, hf⟩ := restoreBody_err _ _ _ _ _ _ hs
        cases he
        exact hf
      · intro _ _
        refine ⟨?_, ?_, ?_⟩
        · intro hf
          subst hf
          apply restoreBody_stage_err
        · intro hf hcs
          subst hf
          obtain ⟨cf, hcf⟩ := Option.isSome_iff_exists.mp hcs
          exact restoreBody_snapshot_err cfg _ binfo dt cf hcf
        · intro hf
          subst hf
          apply restoreBody_ok

/-- Witness for C7 at a concrete found archive with a stage fault. -/
theorem claimC7_witness :
    hasTempDir (restore_backup ⟨[]⟩ st7 "backup_20260102_000000".data true 9 d0
        (some RStep.stage)).2.items 9 = false ∧
    (∀ s, (restore_backup ⟨[]⟩ st7 "backup_20260102_000000".data true 9 d0
        (some RStep.stage)).1 = .error (.stepFail s) →
        some RStep.stage = some s) ∧
    (((list_backups st7.items).find?
        (fun b => decide (b.name = "backup_20260102_000000".data))).isSome →
      true = true →
      (some RStep.stage = some RStep.stage →
        (restore_backup ⟨[]⟩ st7 "backup_20260102_000000".data true 9 d0
          (some RStep.stage)).1 = .error (.stepFail RStep.stage)) ∧
      (some RStep.stage = some RStep.snapshot → st7.content.isSome →
        (restore_backup ⟨[]⟩ st7 "backup_20260102_000000".data true 9 d0
          (some RStep.stage)).1 = .error (.stepFail RStep.snapshot)) ∧
      (some RStep.stage = none →
        (restore_backup ⟨[]⟩ st7 "backup_20260102_000000".data true 9 d0
          (some RStep.stage)).1 = .ok true)) :=
  claimC7_thm ⟨[]⟩ st7 "backup_20260102_000000".data true 9 d0
    (some RStep.stage) (by decide)


/-! ## Claim C4: discoverability of the safety snapshot -/

theorem restoreOverlay_items (cfg : RestoreCfg) (st : RState)
    (staged : List FileEnt) (fault : Option RStep) :
    (restoreOverlay cfg st staged fault).2.items = st.items := by
  unfold restoreOverlay
  split
  · split <;> rfl
  · rfl

theorem restoreCopyNew_items (cfg : RestoreCfg) (st : RState)
    (staged : List FileEnt) (fault : Option RStep) :
    (restoreCopyNew cfg st staged fault).2.items = st.items := by
  unfold restoreCopyNew
  split
  · rfl
  · rw [restoreOverlay_items]

theorem restoreSwap_items (cfg : RestoreCfg) (st : RState)
    (staged : List FileEnt) (fault : Option RStep) :
    (restoreSwap cfg st staged fault).2.items = st.items := by
  unfold restoreSwap
  split
  · split
    · split
      · rfl
      · rw [restoreCopyNew_items]
    · rw [restoreCopyNew_items]
  · rw [restoreOverlay_items]

theorem restoreBody_items_snap (cfg : RestoreCfg) (st : RState)
    (binfo : BackupInfo) (dt : DateTime) (fault : Option RStep)
    (cf : List FileEnt) (hcf : st.content = some cf)
    (hok : (restoreBody cfg st binfo dt fault).1 = .ok true) :
    (restoreBody cfg st binfo dt fault).2.items =
      st.items ++ [DirItem.subdir (preName dt) none cf] := by
  unfold restoreBody at hok ⊢
  by_cases h1 : fault = some RStep.stage
  · rw [if_pos h1] at hok
    cases hok
  · rw [if_neg h1] at hok ⊢
    rw [hcf] at hok ⊢
    by_cases h2 : fault = some RStep.snapshot
    · simp only [h2, if_pos] at hok
      cases hok
    · simp only [if_neg h2] at hok ⊢
      rw [restoreSwap_items]

theorem preName_ne_tempName (dt : DateTime) (now : Nat) :
    preName dt ≠ tempName now := by
  intro h
  have h4 := congrArg (fun l => List.take 4 l) h
  simp only at h4
  rw [preName, tempName, List.take_append_of_le_length (by decide),
    List.take_append_of_le_length (by decide)] at h4
  exact absurd h4 (by decide)

/-- C4 counterexample: a concrete successful restore of a directory-form
archive with current content present creates the `pre_restore_*` snapshot,
yet `list_backups` afterwards does not include it — it is written without
any metadata record, so the listing mechanism skips it. -/
theorem claimC4_false : ¬ claimC4 := by
  intro h
  have := h ⟨[]⟩ st4 "backup_20260101_000000".data true 7 d0
    (by decide) (by decide)
  exact absurd this (by decide)

/-- C4 amended: after every successful restore that found current content
(and whose snapshot name is fresh in the backup root), the pre-restore
snapshot exists in the backup root as a plain directory holding the old
content — discoverable by a raw directory scan — but it carries no
metadata record, so `list_backups` does not include it. -/
theorem claimC4_amended (cfg : RestoreCfg) (st : RState) (nm : Pth)
    (now : Nat) (dt : DateTime) (fault : Option RStep) (cf : List FileEnt)
    (hcf : st.content = some cf)
    (hfresh : freshName st.items (preName dt))
    (hok : (restore_backup cfg st nm true now dt fault).1 = .ok true) :
    DirItem.subdir (preName dt) none cf ∈
        (restore_backup cfg st nm true now dt fault).2.items ∧
    preName dt ∉
      (list_backups (restore_backup cfg st nm true now dt fault).2.items).map
        (fun b => b.name) := by
  rcases hfind : (list_backups st.items).find? (fun b => decide (b.name = nm))
    with _ | binfo
  · exfalso
    unfold restore_backup at hok
    rw [hfind] at hok
    exact absurd hok (by simp)
  · have hr : restore_backup cfg st nm true now dt fault =
        ((restoreBody cfg
            { st with items := st.items ++ [DirItem.subdir (tempName now) none []] }
            binfo dt fault).1,
          removeTemp now (restoreBody cfg
            { st with items := st.items ++ [DirItem.subdir (tempName now) none []] }
            binfo dt fault).2) := by
      unfold restore_backup
      rw [hfind]
      rfl
    rw [hr] at hok ⊢
    dsimp only at hok ⊢
    have hitems := restoreBody_items_snap cfg
      { st with items := st.items ++ [DirItem.subdir (tempName now) none []] }
      binfo dt fault cf hcf hok
    have hitems2 : (removeTemp now (restoreBody cfg
        { st with items := st.items ++ [DirItem.subdir (tempName now) none []] }
        binfo dt fault).2).items =
        ((st.items ++ [DirItem.subdir (tempName now) none []]) ++
          [DirItem.subdir (preName dt) none cf]).filter fun it =>
            match it with
            | .subdir n _ _ => !(decide (n = tempName now))
            | _ => true := by
      unfold removeTemp
      rw [hitems]
    rw [hitems2]
    constructor
    · refine List.mem_filter.mpr ⟨?_, ?_⟩
      · exact List.mem_append_right _ (List.mem_singleton.mpr rfl)
      · simp [preName_ne_tempName dt now]
    · intro hmem
      obtain ⟨b, hb, hbname⟩ := List.mem_map.mp hmem
      obtain ⟨it, hit, hmk, href⟩ := listed_name_refers hb
      rw [hbname] at href
      have hit2 := List.mem_of_mem_filter hit
      rcases List.mem_append.mp hit2 with hit3 | hit3
      · rcases List.mem_append.mp hit3 with hit4 | hit4
        · exact absurd href (by simp [hfresh it hit4])
        · rw [List.mem_singleton.mp hit4] at hmk
          simp [mkInfo] at hmk
      · rw [List.mem_singleton.mp hit3] at hmk
        simp [mkInfo] at hmk

/-- Witness for C4 amended, at the concrete C4 scenario. -/
theorem claimC4_amended_witness :
    DirItem.subdir (preName d0) none [⟨"old.md".data, 2⟩] ∈
        (restore_backup ⟨[]⟩ st4 "backup_20260101_000000".data true 7 d0
          none).2.items ∧
    preName d0 ∉
      (list_backups (restore_backup ⟨[]⟩ st4 "backup_20260101_000000".data
          true 7 d0 none).2.items).map (fun b => b.name) :=
  claimC4_amended ⟨[]⟩ st4 "backup_20260101_000000".data 7 d0 none
    [⟨"old.md".data, 2⟩] (by decide) (by decide) (by decide)

/-! ## Claim C5: config files of compressed archives are not restored -/

/-- C5, evaluated at the failing input: `create_backup` with compression
includes the existing `config.yaml` in the archive (at the archive root,
as `zipf.write` stores it under its script-relative path), a subsequent
confirmed, fault-free restore of that very archive succeeds — and yet the
configured config file does not exist afterwards: the restore swap only
overlays files found under the staged `config/` subdirectory, which a
compressed archive does not contain. -/
theorem claimC5_code_bug :
    (create_backup cfgC5 stC5 d0 50 "c".data).1 = get_backup_filename d0 ∧
    "config.yaml".data ∈
      (getZipEntries (create_backup cfgC5 stC5 d0 50 "c".data).2
        (get_backup_filename d0)).map (fun f => f.path) ∧
    (restore_backup ⟨["config.yaml".data]⟩
        ⟨(create_backup cfgC5 stC5 d0 50 "c".data).2,
          some [⟨"ch1.md".data, 6⟩], []⟩
        (get_backup_filename d0) true 60 ⟨2026, 1, 2, 3, 4, 7⟩ none).1 =
      .ok true ∧
    (restore_backup ⟨["config.yaml".data]⟩
        ⟨(create_backup cfgC5 stC5 d0 50 "c".data).2,
          some [⟨"ch1.md".data, 6⟩], []⟩
        (get_backup_filename d0) true 60 ⟨2026, 1, 2, 3, 4, 7⟩ none).2.configsPresent =
      [] := by
  decide

end BackupSystem
